import Mathlib

/-!
The package gogearbox_testings: the fake request and the fake context of `tester.go`.

A shallow embedding of `src/tester.go`.  The two Go structs `fake_request` and
`fake_context` become Lean structures, their methods become functions that take
the receiver and return the updated receiver (Go mutates through the pointer).

Three things come from outside the repository and are treated as follows.

* `net/http`, `net/http/httputil`, the fasthttp request parser, the fasthttp header
  and query lookups and the jsoniter codec are functions of the record `Lib`; every
  definition that calls them takes a `Lib` and every theorem holds for all of them.
* The fasthttp request and response records are modelled by the fields the
  methods of `tester.go` read and write: setting the body, the status code or the
  content type writes the field, reading it returns the field.
* A `handlerFunc` is a Go function that receives the context as a
  `gearbox.Context`, so all it can do with it is call the methods of that
  interface.  It is modelled by the tree of the calls it makes, each node holding
  the continuation that receives the result of the call.

A run-time panic of Go is the result `none`.  The context carries one ghost field,
`invoked`, the log of the chain positions whose handler `Next` has called.

Go strings and byte slices are byte sequences.

Go's `int` is 64 bits wide and the cursor is modelled by an unbounded `Int`.  The two agree
as long as the cursor is below `MaxInt64`: there `ctx.index++` is the plain successor.  At
`MaxInt64` the Go increment wraps to the least `int`, the bounds test of `Next` passes and
indexing the chain panics.  The statements that `Next` returns from a given cursor therefore
carry the bound; the statements about what holds when an operation has returned need none.
-/

namespace GogearboxTestings

/-- A Go byte slice. -/
abbrev Bytes := List UInt8

/-- A Go string, a read-only byte sequence. -/
abbrev GoString := List UInt8

/-- The bytes of an ASCII literal. -/
def str (s : String) : GoString := s.data.map (fun c => UInt8.ofNat c.toNat)

/-- A non-nil Go `error`, identified by its message. -/
structure GoError where
  msg : GoString
deriving DecidableEq

/-- A dynamically typed Go value, what an `interface{}` argument may hold. -/
inductive Value where
  | null : Value
  | bool (b : Bool) : Value
  | int (i : Int) : Value
  | string (s : GoString) : Value
  | array (items : List Value) : Value
  | object (fields : List (GoString × Value)) : Value
  | func : Value

/-- Reading a Go map with string keys: the stored value, if any. -/
def mapGet {β : Type} (m : List (GoString × β)) (key : GoString) : Option β :=
  match m with
  | [] => none
  | (k, v) :: rest => if k = key then some v else mapGet rest key

/-- Writing a Go map with string keys: `m[key] = value`. -/
def mapSet {β : Type} (m : List (GoString × β)) (key : GoString) (value : β) :
    List (GoString × β) :=
  match m with
  | [] => [(key, value)]
  | (k, v) :: rest => if k = key then (k, value) :: rest else (k, v) :: mapSet rest key value

/-- The Go function `strings.HasPrefix`. -/
def HasPrefix (s pre : GoString) : Bool := pre.isPrefixOf s

namespace http

/-- The fields of a `net/http` request that `tester.go` sets. -/
structure Request where
  Method : GoString
  URL : GoString
  Header : List (GoString × GoString)
  Body : Bytes

end http

namespace fasthttp

/-- The fasthttp request record: content type, other headers, query arguments, body. -/
structure Request where
  contentType : GoString := []
  header : List (GoString × GoString) := []
  queryArgs : List (GoString × GoString) := []
  body : Bytes := []

/-- The fasthttp response record.  `fasthttp.Response{}` is the record of defaults. -/
structure Response where
  statusCode : Int := 0
  contentType : GoString := []
  header : List (GoString × GoString) := []
  body : Bytes := []

/-- The fasthttp request context: request, response and the user values. -/
structure RequestCtx where
  Request : fasthttp.Request := {}
  Response : fasthttp.Response := {}
  userValues : List (GoString × Value) := []

end fasthttp

/-- The library functions `tester.go` calls and does not define. -/
structure Lib where
  /-- The Go function `http.NewRequest(method, url, bytes.NewBuffer(body))`. -/
  NewRequest : GoString → GoString → Bytes → Except GoError http.Request
  /-- The key under which `http.Header.Set` stores a header. -/
  CanonicalHeaderKey : GoString → GoString
  /-- The Go function `httputil.DumpRequest(req, true)`. -/
  DumpRequest : http.Request → Except GoError Bytes
  /-- The method `Request.Read` of fasthttp on the dumped bytes: the request record as the
  parser leaves it, and the error if any. -/
  Read : fasthttp.Request → Bytes → fasthttp.Request × Option GoError
  /-- The method `Peek` of the fasthttp request header: the value of a header, empty when the
  header is not there. -/
  HeaderPeek : fasthttp.Request → GoString → GoString
  /-- The method `Set` of the fasthttp response header: the response with the header set. -/
  HeaderSet : fasthttp.Response → GoString → GoString → fasthttp.Response
  /-- The method `Peek` of the query arguments of the request: the value of a query
  argument, empty when the argument is not there. -/
  QueryPeek : fasthttp.Request → GoString → GoString
  /-- The jsoniter function `Marshal`. -/
  Marshal : Value → Except GoError Bytes
  /-- The jsoniter function `Unmarshal(data, out)`: the value `out` points to afterwards and
  the error if any. -/
  Unmarshal : Bytes → Value → Value × Option GoError

/-- Modelled from the spec: the constant `gearbox.MIMEApplicationJSON`, declared in the gearbox
package; the spec gives the content type as `application/json`. -/
def MIMEApplicationJSON : GoString := str "application/json"

/-- The type `handlerFunc func(ctx gearbox.Context)`: the calls a handler makes on the context
it receives, in order; a call that returns a result is followed by a continuation that takes
the result. -/
inductive handlerFunc where
  | ret : handlerFunc
  | Next (k : handlerFunc) : handlerFunc
  | Param (key : GoString) (k : GoString → handlerFunc) : handlerFunc
  | Context (write : fasthttp.RequestCtx → fasthttp.RequestCtx)
      (k : fasthttp.RequestCtx → handlerFunc) : handlerFunc
  | SendBytes (value : Bytes) (k : handlerFunc) : handlerFunc
  | SendString (value : GoString) (k : handlerFunc) : handlerFunc
  | SendJSON (value : Value) (k : Option GoError → handlerFunc) : handlerFunc
  | Status (status : Int) (k : handlerFunc) : handlerFunc
  | Get (key : GoString) (k : GoString → handlerFunc) : handlerFunc
  | Set (key value : GoString) (k : handlerFunc) : handlerFunc
  | Query (key : GoString) (k : GoString → handlerFunc) : handlerFunc
  | Body (k : GoString → handlerFunc) : handlerFunc
  | SetLocal (key : GoString) (value : Value) (k : handlerFunc) : handlerFunc
  | GetLocal (key : GoString) (k : Option Value → handlerFunc) : handlerFunc
  | ParseBody (out : Value) (k : Value → Option GoError → handlerFunc) : handlerFunc

/-- The largest value of Go's 64-bit `int`, `math.MaxInt64`, which is 2^63 - 1. -/
def MaxInt64 : Int := 9223372036854775807

/-- The type `handlersChain []handlerFunc`. -/
abbrev handlersChain := List handlerFunc

/-- The struct `fake_context`.  The field `invoked` is not in the Go struct: it is a ghost
log of the chain positions whose handler `Next` has called, oldest first. -/
structure fake_context where
  requestCtx : fasthttp.RequestCtx
  paramValues : List (GoString × GoString)
  handlers : handlersChain
  index : Int
  invoked : List Nat

/-- The struct `fake_request`. -/
structure fake_request where
  request : http.Request
  context : fake_context
  body : Bytes

namespace fake_context

/-- The method `Param`: the value stored under `key`, the empty string when there is none. -/
def Param (ctx : fake_context) (key : GoString) : GoString :=
  (mapGet ctx.paramValues key).getD []

/-- The method `Context`. -/
def Context (ctx : fake_context) : fasthttp.RequestCtx := ctx.requestCtx

/-- The method `SendBytes`: `Response.SetBodyRaw(value)`. -/
def SendBytes (ctx : fake_context) (value : Bytes) : fake_context :=
  { ctx with requestCtx := { ctx.requestCtx with
      Response := { ctx.requestCtx.Response with body := value } } }

/-- The method `SendString`: `SetBodyString(value)`. -/
def SendString (ctx : fake_context) (value : GoString) : fake_context :=
  { ctx with requestCtx := { ctx.requestCtx with
      Response := { ctx.requestCtx.Response with body := value } } }

/-- The method `SendJSON`: the context afterwards and the returned error. -/
def SendJSON (lib : Lib) (ctx : fake_context) (value : Value) :
    fake_context × Option GoError :=
  match lib.Marshal value with
  | .error err => (ctx, some err)
  | .ok raw =>
    ({ ctx with requestCtx := { ctx.requestCtx with
        Response := { ctx.requestCtx.Response with
          contentType := MIMEApplicationJSON, body := raw } } }, none)

/-- The method `Status`: `Response.SetStatusCode(status)`. -/
def Status (ctx : fake_context) (status : Int) : fake_context :=
  { ctx with requestCtx := { ctx.requestCtx with
      Response := { ctx.requestCtx.Response with statusCode := status } } }

/-- The method `Get`: `Request.Header.Peek(key)`. -/
def Get (lib : Lib) (ctx : fake_context) (key : GoString) : GoString :=
  lib.HeaderPeek ctx.requestCtx.Request key

/-- The method `Set`: `Response.Header.Set(key, value)`. -/
def Set (lib : Lib) (ctx : fake_context) (key value : GoString) : fake_context :=
  { ctx with requestCtx := { ctx.requestCtx with
      Response := lib.HeaderSet ctx.requestCtx.Response key value } }

/-- The method `Query`: `QueryArgs().Peek(key)`. -/
def Query (lib : Lib) (ctx : fake_context) (key : GoString) : GoString :=
  lib.QueryPeek ctx.requestCtx.Request key

/-- The method `Body`: `Request.Body()` as a string. -/
def Body (ctx : fake_context) : GoString := ctx.requestCtx.Request.body

/-- The method `SetLocal`: `SetUserValue(key, value)`. -/
def SetLocal (ctx : fake_context) (key : GoString) (value : Value) : fake_context :=
  { ctx with requestCtx := { ctx.requestCtx with
      userValues := mapSet ctx.requestCtx.userValues key value } }

/-- The method `GetLocal`: `UserValue(key)`, nil when there is none. -/
def GetLocal (ctx : fake_context) (key : GoString) : Option Value :=
  mapGet ctx.requestCtx.userValues key

/-- The message `fmt.Errorf` builds in `ParseBody` for the content type `contentType`. -/
def unsupportedMessage (contentType : GoString) : GoString :=
  str "content type '" ++ contentType ++
    str ("' is not supported, " ++ "please open a request to support it " ++
      "(https://github.com/gogearbox/gearbox/issues/new?template=feature_request.md)")

/-- The method `ParseBody`: the value `out` points to afterwards and the returned error. -/
def ParseBody (lib : Lib) (ctx : fake_context) (out : Value) : Value × Option GoError :=
  let contentType := ctx.requestCtx.Request.contentType
  if HasPrefix contentType MIMEApplicationJSON then
    lib.Unmarshal ctx.requestCtx.Request.body out
  else
    (out, some { msg := unsupportedMessage contentType })

end fake_context

/-- Running the body of a handler on a context, `next` being what a call of `ctx.Next()`
does.  `none` is a run-time panic. -/
def exec (lib : Lib) (next : fake_context → Option fake_context) :
    handlerFunc → fake_context → Option fake_context
  | .ret, ctx => some ctx
  | .Next k, ctx => (next ctx).bind (exec lib next k)
  | .Param key k, ctx => exec lib next (k (ctx.Param key)) ctx
  | .Context write k, ctx =>
    exec lib next (k ctx.Context) { ctx with requestCtx := write ctx.Context }
  | .SendBytes value k, ctx => exec lib next k (ctx.SendBytes value)
  | .SendString value k, ctx => exec lib next k (ctx.SendString value)
  | .SendJSON value k, ctx =>
    exec lib next (k (fake_context.SendJSON lib ctx value).2)
      (fake_context.SendJSON lib ctx value).1
  | .Status status k, ctx => exec lib next k (ctx.Status status)
  | .Get key k, ctx => exec lib next (k (ctx.Get lib key)) ctx
  | .Set key value k, ctx => exec lib next k (ctx.Set lib key value)
  | .Query key k, ctx => exec lib next (k (ctx.Query lib key)) ctx
  | .Body k, ctx => exec lib next (k ctx.Body) ctx
  | .SetLocal key value k, ctx => exec lib next k (ctx.SetLocal key value)
  | .GetLocal key k, ctx => exec lib next (k (ctx.GetLocal key)) ctx
  | .ParseBody out k, ctx =>
    exec lib next
      (k (fake_context.ParseBody lib ctx out).1 (fake_context.ParseBody lib ctx out).2) ctx

/-- The method `Next` with a bound `fuel` on how deep the handlers it calls may call `Next`
in turn.  `none` is a run-time panic (indexing the chain at a negative position) or the
bound being reached.  The increment is the successor on `Int`, which is what `ctx.index++`
does for a cursor below `MaxInt64`. -/
def NextFuel (lib : Lib) : Nat → fake_context → Option fake_context
  | 0, ctx =>
    if ctx.index + 1 < (ctx.handlers.length : Int) then none
    else some { ctx with index := ctx.index + 1 }
  | fuel + 1, ctx =>
    if ctx.index + 1 < (ctx.handlers.length : Int) then
      if 0 ≤ ctx.index + 1 then
        match ctx.handlers[(ctx.index + 1).toNat]? with
        | some handler =>
          exec lib (NextFuel lib fuel) handler
            { ctx with index := ctx.index + 1,
                       invoked := ctx.invoked ++ [(ctx.index + 1).toNat] }
        | none => none
      else none
    else some { ctx with index := ctx.index + 1 }

/-- The method `Next`.  Every handler it calls runs at a chain position above the one of its
caller, so the calls nest at most as deep as the chain is long. -/
def fake_context.Next (lib : Lib) (ctx : fake_context) : Option fake_context :=
  NextFuel lib ctx.handlers.length ctx

/-- Calling a handler on a context: `handler(ctx)`. -/
def handlerFunc.call (lib : Lib) (handler : handlerFunc) (ctx : fake_context) :
    Option fake_context :=
  exec lib (fake_context.Next lib) handler ctx

namespace fake_request

/-- The method `SetParam`. -/
def SetParam (fr : fake_request) (param value : GoString) : fake_request :=
  { fr with context := { fr.context with
      paramValues := mapSet fr.context.paramValues param value } }

/-- The method `SetHeader`: `Header.Set(key, value)` on the `net/http` request. -/
def SetHeader (lib : Lib) (fr : fake_request) (key value : GoString) : fake_request :=
  { fr with request := { fr.request with
      Header := mapSet fr.request.Header (lib.CanonicalHeaderKey key) value } }

/-- The method `Run`: the request afterwards, the returned response and the returned error;
`none` when the handler panics. -/
def Run (lib : Lib) (fr : fake_request) (handler : handlerFunc) :
    Option (fake_request × fasthttp.Response × Option GoError) :=
  match lib.DumpRequest fr.request with
  | .error err => some (fr, {}, some err)
  | .ok dumpRequest =>
    match lib.Read fr.context.requestCtx.Request dumpRequest with
    | (parsed, some err) =>
      some ({ fr with context := { fr.context with
                requestCtx := { fr.context.requestCtx with Request := parsed } } },
            {}, some err)
    | (parsed, none) =>
      (handler.call lib
          { fr.context with requestCtx := { fr.context.requestCtx with
              Request := { parsed with body := fr.body } } }).map
        (fun ctx => ({ fr with context := ctx }, ctx.requestCtx.Response, none))

end fake_request

/-- The function `NewFakeRequest`.  The Go literal sets neither `handlers` nor `index`, which
so hold their zero values. -/
def NewFakeRequest (lib : Lib) (method url : GoString) (body : Bytes) :
    Except GoError fake_request :=
  match lib.NewRequest method url body with
  | .error e => .error e
  | .ok req =>
    .ok { request := req,
          context := { requestCtx := {}, paramValues := [], handlers := [], index := 0,
                       invoked := [] },
          body := body }

/-! ## Vocabulary of the statements -/

/-- A `Next` function is steady when it keeps the handler chain and the path parameters and
does not move the cursor back. -/
def Steady (next : fake_context → Option fake_context) : Prop :=
  ∀ c c1, next c = some c1 →
    c1.handlers = c.handlers ∧ c.index ≤ c1.index ∧ c1.paramValues = c.paramValues

/-- The handler never calls `Next`, whatever results its other calls return. -/
def callsNoNext : handlerFunc → Prop
  | .ret => True
  | .Next _ => False
  | .Param _ k => ∀ v, callsNoNext (k v)
  | .Context _ k => ∀ r, callsNoNext (k r)
  | .SendBytes _ k => callsNoNext k
  | .SendString _ k => callsNoNext k
  | .SendJSON _ k => ∀ e, callsNoNext (k e)
  | .Status _ k => callsNoNext k
  | .Get _ k => ∀ v, callsNoNext (k v)
  | .Set _ _ k => callsNoNext k
  | .Query _ k => ∀ v, callsNoNext (k v)
  | .Body k => ∀ v, callsNoNext (k v)
  | .SetLocal _ _ k => callsNoNext k
  | .GetLocal _ k => ∀ v, callsNoNext (k v)
  | .ParseBody _ k => ∀ v e, callsNoNext (k v e)

/-- The handler calls `Next` at most `m` times, whatever results its other calls return. -/
def nextsAtMost : handlerFunc → Nat → Prop
  | .ret, _ => True
  | .Next k, m => 0 < m ∧ nextsAtMost k (m - 1)
  | .Param _ k, m => ∀ v, nextsAtMost (k v) m
  | .Context _ k, m => ∀ r, nextsAtMost (k r) m
  | .SendBytes _ k, m => nextsAtMost k m
  | .SendString _ k, m => nextsAtMost k m
  | .SendJSON _ k, m => ∀ e, nextsAtMost (k e) m
  | .Status _ k, m => nextsAtMost k m
  | .Get _ k, m => ∀ v, nextsAtMost (k v) m
  | .Set _ _ k, m => nextsAtMost k m
  | .Query _ k, m => ∀ v, nextsAtMost (k v) m
  | .Body k, m => ∀ v, nextsAtMost (k v) m
  | .SetLocal _ _ k, m => nextsAtMost k m
  | .GetLocal _ k, m => ∀ v, nextsAtMost (k v) m
  | .ParseBody _ k, m => ∀ v e, nextsAtMost (k v e) m

/-- The requests a test can hold: what `NewFakeRequest` returns, and what `SetParam`,
`SetHeader` and a `Run` that returned leave behind. -/
inductive Reachable (lib : Lib) : fake_request → Prop
  | new (method url : GoString) (body : Bytes) (fr : fake_request) :
      NewFakeRequest lib method url body = .ok fr → Reachable lib fr
  | setParam (fr : fake_request) (param value : GoString) :
      Reachable lib fr → Reachable lib (fr.SetParam param value)
  | setHeader (fr : fake_request) (key value : GoString) :
      Reachable lib fr → Reachable lib (fr.SetHeader lib key value)
  | run (fr : fake_request) (handler : handlerFunc) (after : fake_request)
      (resp : fasthttp.Response) (err : Option GoError) :
      Reachable lib fr → fr.Run lib handler = some (after, resp, err) → Reachable lib after

/-- Calling `Next` on a context `n` times in a row. -/
def nextTimes (lib : Lib) : Nat → fake_context → Option fake_context
  | 0, ctx => some ctx
  | n + 1, ctx => (fake_context.Next lib ctx).bind (nextTimes lib n)

/-- Injecting a list of headers with `SetHeader`, first to last. -/
def setHeaders (lib : Lib) (fr : fake_request) (headers : List (GoString × GoString)) :
    fake_request :=
  headers.foldl (fun r kv => r.SetHeader lib kv.1 kv.2) fr

/-- What `Next` does when it calls no handler: the cursor moves forward by one. -/
def advance (ctx : fake_context) : Option fake_context :=
  some { ctx with index := ctx.index + 1 }

/-! ## Concrete inputs -/

/-- One concrete choice of the library functions, small enough to evaluate: a request is refused
when its method holds a space, the dump fails on an empty URL and is otherwise the request
line followed by the body, the parser keeps the whole dump as the body and fails on a dump of
64 bytes or more, headers and query arguments are looked up as stored, and the codec knows
quoted strings, one-field objects of a string and the document with the single integer
field `a`. -/
def sampleLib : Lib where
  NewRequest := fun method url body =>
    if method.contains 32 then .error { msg := str "net/http: invalid method" }
    else .ok { Method := method, URL := url, Header := [], Body := body }
  CanonicalHeaderKey := fun key => key
  DumpRequest := fun req =>
    if req.URL = [] then .error { msg := str "empty url" }
    else .ok (req.Method ++ str " " ++ req.URL ++ str " HTTP/1.1\r\n\r\n" ++ req.Body)
  Read := fun r dump =>
    if dump.length < 64 then ({ r with body := dump }, none)
    else ({ r with body := dump.take 64 }, some { msg := str "too long" })
  HeaderPeek := fun r key => (mapGet r.header key).getD []
  HeaderSet := fun r key value => { r with header := mapSet r.header key value }
  QueryPeek := fun r key => (mapGet r.queryArgs key).getD []
  Marshal := fun v =>
    match v with
    | .string s => .ok (str "\"" ++ s ++ str "\"")
    | .object [(k, .string s)] =>
      .ok (str "\x7b\"" ++ k ++ str "\":\"" ++ s ++ str "\"\x7d")
    | _ => .error { msg := str "unsupported type" }
  Unmarshal := fun data out =>
    if data = str "\x7b\"a\":1\x7d" then (.object [(str "a", .int 1)], none)
    else (out, some { msg := str "invalid character" })

/-- The request of the end-to-end scenario as `NewFakeRequest` returns it under `sampleLib`. -/
def sampleRequest : fake_request :=
  { request := { Method := str "GET", URL := str "/users/42", Header := [], Body := [] },
    context := { requestCtx := {}, paramValues := [], handlers := [], index := 0,
                 invoked := [] },
    body := [] }

/-- The request `NewFakeRequest` returns under `sampleLib` for a method without a space. -/
def requestOf (method url : GoString) (body : Bytes) : fake_request :=
  { request := { Method := method, URL := url, Header := [], Body := body },
    context := { requestCtx := {}, paramValues := [], handlers := [], index := 0,
                 invoked := [] },
    body := body }

/-- A context holding a request with the given content type and body. -/
def sampleContext (contentType : GoString) (body : Bytes) : fake_context :=
  { requestCtx := { Request := { contentType := contentType, body := body } },
    paramValues := [], handlers := [], index := 0, invoked := [] }

/-- The handler of the end-to-end scenario: it reads `Param("id")`, sets status 200 and sends
as JSON the object that maps `id` to what it read. -/
def userHandler : handlerFunc :=
  .Param (str "id") (fun id =>
    .Status 200 (.SendJSON (.object [(str "id", .string id)]) (fun _ => .ret)))

/-- A handler that sets a status and returns without calling `Next`. -/
def statusHandler (status : Int) : handlerFunc := .Status status .ret

/-- A context at cursor `index` over a chain of three status handlers. -/
def chainContext (index : Int) : fake_context :=
  { requestCtx := {}, paramValues := [(str "id", str "42")],
    handlers := [statusHandler 201, statusHandler 202, statusHandler 203],
    index := index, invoked := [] }

/-! ## Frame lemmas -/

/-- Reading a key just written gives the written value. -/
theorem mapGet_mapSet_same {β : Type} (m : List (GoString × β)) (key : GoString) (value : β) :
    mapGet (mapSet m key value) key = some value := by
  induction m with
  | nil => simp [mapSet, mapGet]
  | cons p rest ih =>
    obtain ⟨k, v⟩ := p
    by_cases hk : k = key
    · simp [mapSet, mapGet, hk]
    · simp [mapSet, mapGet, hk, ih]

/-- Writing a key leaves what is read under every other key. -/
theorem mapGet_mapSet_other {β : Type} (m : List (GoString × β)) (key other : GoString)
    (value : β) (hne : other ≠ key) :
    mapGet (mapSet m key value) other = mapGet m other := by
  induction m with
  | nil =>
    have hne2 : ¬ key = other := fun h => hne h.symm
    simp [mapSet, mapGet, hne2]
  | cons p rest ih =>
    obtain ⟨k, v⟩ := p
    by_cases hk : k = key
    · have hne2 : ¬ key = other := fun h => hne h.symm
      subst hk
      simp [mapSet, mapGet, hne2]
    · by_cases ho : k = other
      · subst ho
        simp [mapSet, mapGet, hk]
      · simp [mapSet, mapGet, hk, ho, ih]

/-- A handler body run with a steady `Next` is steady. -/
theorem exec_steady (lib : Lib) (next : fake_context → Option fake_context)
    (hnext : Steady next) (handler : handlerFunc) : Steady (exec lib next handler) := by
  induction handler with
  | ret =>
    intro c c1 h
    simp only [exec, Option.some.injEq] at h
    subst h
    exact ⟨rfl, le_refl _, rfl⟩
  | Next k ih =>
    intro c c1 h
    simp only [exec, Option.bind_eq_some] at h
    obtain ⟨c2, h2, h3⟩ := h
    obtain ⟨a1, a2, a3⟩ := hnext c c2 h2
    obtain ⟨b1, b2, b3⟩ := ih c2 c1 h3
    exact ⟨b1.trans a1, le_trans a2 b2, b3.trans a3⟩
  | Param key k ih => intro c c1 h; simp only [exec] at h; exact ih _ _ _ h
  | Context write k ih => intro c c1 h; simp only [exec] at h; have hs := ih _ _ _ h; exact hs
  | SendBytes value k ih => intro c c1 h; simp only [exec] at h; have hs := ih _ _ h; exact hs
  | SendString value k ih => intro c c1 h; simp only [exec] at h; have hs := ih _ _ h; exact hs
  | SendJSON value k ih =>
    intro c c1 h
    simp only [exec] at h
    have hs := ih _ _ c1 h
    unfold fake_context.SendJSON at hs
    cases hm : lib.Marshal value with
    | error e => rw [hm] at hs; exact hs
    | ok raw => rw [hm] at hs; exact hs
  | Status status k ih => intro c c1 h; simp only [exec] at h; have hs := ih _ _ h; exact hs
  | Get key k ih => intro c c1 h; simp only [exec] at h; exact ih _ _ _ h
  | Set key value k ih => intro c c1 h; simp only [exec] at h; have hs := ih _ _ h; exact hs
  | Query key k ih => intro c c1 h; simp only [exec] at h; exact ih _ _ _ h
  | Body k ih => intro c c1 h; simp only [exec] at h; exact ih _ _ _ h
  | SetLocal key value k ih => intro c c1 h; simp only [exec] at h; have hs := ih _ _ h; exact hs
  | GetLocal key k ih => intro c c1 h; simp only [exec] at h; exact ih _ _ _ h
  | ParseBody out k ih => intro c c1 h; simp only [exec] at h; exact ih _ _ _ _ h

/-- The bounded `Next` is steady, whatever the bound. -/
theorem NextFuel_steady (lib : Lib) (fuel : Nat) : Steady (NextFuel lib fuel) := by
  induction fuel with
  | zero =>
    intro c c1 h
    unfold NextFuel at h
    split at h
    · exact absurd h (by simp)
    · simp only [Option.some.injEq] at h
      subst h
      exact ⟨rfl, by simp, rfl⟩
  | succ n ih =>
    intro c c1 h
    unfold NextFuel at h
    split at h
    · split at h
      · split at h
        · have hs := exec_steady lib (NextFuel lib n) ih _ _ c1 h
          obtain ⟨a1, a2, a3⟩ := hs
          refine ⟨a1, ?_, a3⟩
          have a4 : c.index + 1 ≤ c1.index := a2
          omega
        · exact absurd h (by simp)
      · exact absurd h (by simp)
    · simp only [Option.some.injEq] at h
      subst h
      exact ⟨rfl, by simp, rfl⟩

/-- Two `Next` functions that agree on the contexts over a given chain with the cursor at or
above a given position give the same run of a handler body from such a context. -/
theorem exec_congr (lib : Lib) (next1 next2 : fake_context → Option fake_context)
    (hs : handlersChain) (j : Int) (h2 : Steady next2)
    (heq : ∀ c, c.handlers = hs → j ≤ c.index → next1 c = next2 c)
    (handler : handlerFunc) :
    ∀ c, c.handlers = hs → j ≤ c.index →
      exec lib next1 handler c = exec lib next2 handler c := by
  induction handler with
  | ret => intro c _ _; simp only [exec]
  | Next k ih =>
    intro c hc hj
    simp only [exec]
    rw [heq c hc hj]
    cases hn : next2 c with
    | none => rfl
    | some c2 =>
      obtain ⟨a1, a2, _⟩ := h2 c c2 hn
      simp only [Option.some_bind]
      exact ih c2 (a1.trans hc) (le_trans hj a2)
  | Param key k ih => intro c hc hj; simp only [exec]; exact ih _ c hc hj
  | Context write k ih => intro c hc hj; simp only [exec]; exact ih _ _ hc hj
  | SendBytes value k ih => intro c hc hj; simp only [exec]; exact ih _ hc hj
  | SendString value k ih => intro c hc hj; simp only [exec]; exact ih _ hc hj
  | SendJSON value k ih =>
    intro c hc hj
    simp only [exec]
    apply ih
    · unfold fake_context.SendJSON
      cases lib.Marshal value with
      | error e => exact hc
      | ok raw => exact hc
    · unfold fake_context.SendJSON
      cases lib.Marshal value with
      | error e => exact hj
      | ok raw => exact hj
  | Status status k ih => intro c hc hj; simp only [exec]; exact ih _ hc hj
  | Get key k ih => intro c hc hj; simp only [exec]; exact ih _ c hc hj
  | Set key value k ih => intro c hc hj; simp only [exec]; exact ih _ hc hj
  | Query key k ih => intro c hc hj; simp only [exec]; exact ih _ c hc hj
  | Body k ih => intro c hc hj; simp only [exec]; exact ih _ c hc hj
  | SetLocal key value k ih => intro c hc hj; simp only [exec]; exact ih _ hc hj
  | GetLocal key k ih => intro c hc hj; simp only [exec]; exact ih _ c hc hj
  | ParseBody out k ih => intro c hc hj; simp only [exec]; exact ih _ _ c hc hj

/-- A bound at least the number of chain positions above the cursor is enough: any two such
bounds give the same result. -/
theorem NextFuel_enough (lib : Lib) :
    ∀ (n m : Nat) (c : fake_context),
      ((c.handlers.length : Int) - (c.index + 1)).toNat ≤ n →
      ((c.handlers.length : Int) - (c.index + 1)).toNat ≤ m →
      NextFuel lib n c = NextFuel lib m c := by
  intro n
  induction n with
  | zero =>
    intro m c hn hm
    have hlen : ¬ (c.index + 1 < (c.handlers.length : Int)) := by omega
    cases m with
    | zero => rfl
    | succ m => unfold NextFuel; simp only [hlen, if_false]
  | succ n ih =>
    intro m c hn hm
    by_cases hlen : c.index + 1 < (c.handlers.length : Int)
    · cases m with
      | zero => omega
      | succ m =>
        unfold NextFuel
        simp only [hlen, if_true]
        by_cases hpos : 0 ≤ c.index + 1
        · simp only [hpos, if_true]
          cases hh : c.handlers[(c.index + 1).toNat]? with
          | none => rfl
          | some handler =>
            simp only
            apply exec_congr lib (NextFuel lib n) (NextFuel lib m) c.handlers (c.index + 1)
              (NextFuel_steady lib m)
            · intro c2 hc2 hj2
              apply ih
              · rw [hc2]; omega
              · rw [hc2]; omega
            · rfl
            · exact le_refl _
        · simp only [hpos, if_false]
    · cases m with
      | zero => unfold NextFuel; simp only [hlen, if_false]
      | succ m => unfold NextFuel; simp only [hlen, if_false]

/-- The method `Next` is steady. -/
theorem Next_steady (lib : Lib) : Steady (fake_context.Next lib) := by
  intro c c1 h
  exact NextFuel_steady lib c.handlers.length c c1 h

/-- Past the end of the chain `Next` only advances the cursor. -/
theorem Next_out_of_range (lib : Lib) (ctx : fake_context)
    (h : (ctx.handlers.length : Int) ≤ ctx.index + 1) :
    fake_context.Next lib ctx = advance ctx := by
  have hlen : ¬ (ctx.index + 1 < (ctx.handlers.length : Int)) := by omega
  unfold fake_context.Next advance
  cases ctx.handlers.length with
  | zero => unfold NextFuel; simp only [hlen, if_false]
  | succ n => unfold NextFuel; simp only [hlen, if_false]

/-- Within the chain `Next` is the call of the handler at the new cursor position, in which
`Next` is again the method itself. -/
theorem Next_in_range (lib : Lib) (ctx : fake_context) (handler : handlerFunc)
    (hpos : 0 ≤ ctx.index + 1) (hlen : ctx.index + 1 < (ctx.handlers.length : Int))
    (hh : ctx.handlers[(ctx.index + 1).toNat]? = some handler) :
    fake_context.Next lib ctx =
      handler.call lib { ctx with index := ctx.index + 1,
                                  invoked := ctx.invoked ++ [(ctx.index + 1).toNat] } := by
  unfold fake_context.Next handlerFunc.call
  cases hn : ctx.handlers.length with
  | zero => rw [hn] at hlen; omega
  | succ n =>
    unfold NextFuel
    simp only [hlen, hpos, if_true, hh]
    apply exec_congr lib (NextFuel lib n) (fake_context.Next lib) ctx.handlers (ctx.index + 1)
      (Next_steady lib)
    · intro c2 hc2 hj2
      unfold fake_context.Next
      apply NextFuel_enough
      · rw [hc2, hn]; push_cast; omega
      · rw [hc2]; omega
    · rfl
    · exact le_refl _

/-- Below the start of the chain `Next` panics: the chain is indexed at a negative position. -/
theorem Next_negative (lib : Lib) (ctx : fake_context)
    (hneg : ¬ 0 ≤ ctx.index + 1) (hlen : ctx.index + 1 < (ctx.handlers.length : Int)) :
    fake_context.Next lib ctx = none := by
  unfold fake_context.Next
  cases ctx.handlers.length with
  | zero => unfold NextFuel; simp only [hlen, if_true]
  | succ n => unfold NextFuel; simp only [hlen, hneg, if_true, if_false]

/-- Advancing the cursor is steady. -/
theorem advance_steady : Steady advance := by
  intro c c1 h
  simp only [advance, Option.some.injEq] at h
  subst h
  exact ⟨rfl, by simp, rfl⟩

/-- A handler body in which `Next` only advances the cursor always returns, with the chain, the
log and the path parameters as before and the cursor not moved back. -/
theorem exec_advance (lib : Lib) (handler : handlerFunc) :
    ∀ c, ∃ c1, exec lib advance handler c = some c1 ∧ c1.handlers = c.handlers ∧
      c1.invoked = c.invoked ∧ c.index ≤ c1.index ∧ c1.paramValues = c.paramValues := by
  induction handler with
  | ret => intro c; exact ⟨c, by simp only [exec], rfl, rfl, le_refl _, rfl⟩
  | Next k ih =>
    intro c
    obtain ⟨c1, h1, a1, a2, a3, a4⟩ := ih { c with index := c.index + 1 }
    refine ⟨c1, ?_, a1, a2, ?_, a4⟩
    · simp only [exec, advance, Option.some_bind]
      exact h1
    · have a5 : c.index + 1 ≤ c1.index := a3
      omega
  | Param key k ih => intro c; simp only [exec]; exact ih _ c
  | Context write k ih => intro c; simp only [exec]; exact ih _ _
  | SendBytes value k ih => intro c; simp only [exec]; exact ih _
  | SendString value k ih => intro c; simp only [exec]; exact ih _
  | SendJSON value k ih =>
    intro c
    simp only [exec]
    have hs := ih (fake_context.SendJSON lib c value).2 (fake_context.SendJSON lib c value).1
    unfold fake_context.SendJSON at hs ⊢
    cases hm : lib.Marshal value with
    | error e => rw [hm] at hs; exact hs
    | ok raw => rw [hm] at hs; exact hs
  | Status status k ih => intro c; simp only [exec]; exact ih _
  | Get key k ih => intro c; simp only [exec]; exact ih _ c
  | Set key value k ih => intro c; simp only [exec]; exact ih _
  | Query key k ih => intro c; simp only [exec]; exact ih _ c
  | Body k ih => intro c; simp only [exec]; exact ih _ c
  | SetLocal key value k ih => intro c; simp only [exec]; exact ih _
  | GetLocal key k ih => intro c; simp only [exec]; exact ih _ c
  | ParseBody out k ih => intro c; simp only [exec]; exact ih _ _ c

/-- A handler body that calls `Next` at most `m` times, run with a `Next` that only advances
the cursor, always returns, with the chain, the log and the path parameters as before and the
cursor moved forward by at most `m`. -/
theorem exec_advance_bound (lib : Lib) (handler : handlerFunc) :
    ∀ (m : Nat) (c : fake_context), nextsAtMost handler m →
      ∃ c1, exec lib advance handler c = some c1 ∧ c1.handlers = c.handlers ∧
        c1.invoked = c.invoked ∧ c.index ≤ c1.index ∧ c1.index ≤ c.index + m ∧
        c1.paramValues = c.paramValues := by
  induction handler with
  | ret =>
    intro m c _
    exact ⟨c, by simp only [exec], rfl, rfl, le_refl _, by omega, rfl⟩
  | Next k ih =>
    intro m c hb
    simp only [nextsAtMost] at hb
    obtain ⟨hm, hk⟩ := hb
    obtain ⟨c1, h1, a1, a2, a3, a4, a5⟩ := ih (m - 1) { c with index := c.index + 1 } hk
    refine ⟨c1, ?_, a1, a2, ?_, ?_, a5⟩
    · simp only [exec, advance, Option.some_bind]
      exact h1
    · have a6 : c.index + 1 ≤ c1.index := a3
      omega
    · have a7 : c1.index ≤ c.index + 1 + ((m - 1 : Nat) : Int) := a4
      omega
  | Param key k ih =>
    intro m c hb; simp only [nextsAtMost] at hb; simp only [exec]; exact ih _ m c (hb _)
  | Context write k ih =>
    intro m c hb; simp only [nextsAtMost] at hb; simp only [exec]; exact ih _ m _ (hb _)
  | SendBytes value k ih =>
    intro m c hb; simp only [nextsAtMost] at hb; simp only [exec]; exact ih m _ hb
  | SendString value k ih =>
    intro m c hb; simp only [nextsAtMost] at hb; simp only [exec]; exact ih m _ hb
  | SendJSON value k ih =>
    intro m c hb
    simp only [nextsAtMost] at hb
    simp only [exec]
    have hs := ih (fake_context.SendJSON lib c value).2 m
      (fake_context.SendJSON lib c value).1 (hb _)
    unfold fake_context.SendJSON at hs ⊢
    cases hm : lib.Marshal value with
    | error e => rw [hm] at hs; exact hs
    | ok raw => rw [hm] at hs; exact hs
  | Status status k ih =>
    intro m c hb; simp only [nextsAtMost] at hb; simp only [exec]; exact ih m _ hb
  | Get key k ih =>
    intro m c hb; simp only [nextsAtMost] at hb; simp only [exec]; exact ih _ m c (hb _)
  | Set key value k ih =>
    intro m c hb; simp only [nextsAtMost] at hb; simp only [exec]; exact ih m _ hb
  | Query key k ih =>
    intro m c hb; simp only [nextsAtMost] at hb; simp only [exec]; exact ih _ m c (hb _)
  | Body k ih =>
    intro m c hb; simp only [nextsAtMost] at hb; simp only [exec]; exact ih _ m c (hb _)
  | SetLocal key value k ih =>
    intro m c hb; simp only [nextsAtMost] at hb; simp only [exec]; exact ih m _ hb
  | GetLocal key k ih =>
    intro m c hb; simp only [nextsAtMost] at hb; simp only [exec]; exact ih _ m c (hb _)
  | ParseBody out k ih =>
    intro m c hb; simp only [nextsAtMost] at hb; simp only [exec]; exact ih _ _ m c (hb _ _)

/-- A handler body that never calls `Next` always returns, with the chain, the cursor, the log
and the path parameters as before. -/
theorem exec_callsNoNext (lib : Lib) (next : fake_context → Option fake_context)
    (handler : handlerFunc) :
    callsNoNext handler → ∀ c, ∃ c1, exec lib next handler c = some c1 ∧
      c1.handlers = c.handlers ∧ c1.index = c.index ∧ c1.invoked = c.invoked ∧
      c1.paramValues = c.paramValues := by
  induction handler with
  | ret => intro _ c; exact ⟨c, by simp only [exec], rfl, rfl, rfl, rfl⟩
  | Next k ih => intro hn; exact absurd hn (by simp [callsNoNext])
  | Param key k ih => intro hn c; simp only [exec]; exact ih _ (hn _) c
  | Context write k ih => intro hn c; simp only [exec]; exact ih _ (hn _) _
  | SendBytes value k ih => intro hn c; simp only [exec]; exact ih hn _
  | SendString value k ih => intro hn c; simp only [exec]; exact ih hn _
  | SendJSON value k ih =>
    intro hn c
    simp only [exec]
    have hs := ih (fake_context.SendJSON lib c value).2 (hn _)
      (fake_context.SendJSON lib c value).1
    unfold fake_context.SendJSON at hs ⊢
    cases hm : lib.Marshal value with
    | error e => rw [hm] at hs; exact hs
    | ok raw => rw [hm] at hs; exact hs
  | Status status k ih => intro hn c; simp only [exec]; exact ih hn _
  | Get key k ih => intro hn c; simp only [exec]; exact ih _ (hn _) c
  | Set key value k ih => intro hn c; simp only [exec]; exact ih hn _
  | Query key k ih => intro hn c; simp only [exec]; exact ih _ (hn _) c
  | Body k ih => intro hn c; simp only [exec]; exact ih _ (hn _) c
  | SetLocal key value k ih => intro hn c; simp only [exec]; exact ih hn _
  | GetLocal key k ih => intro hn c; simp only [exec]; exact ih _ (hn _) c
  | ParseBody out k ih => intro hn c; simp only [exec]; exact ih _ _ (hn _ _) c

/-- Over an empty chain and a cursor that is not negative, every `Next` of a handler call only
advances the cursor. -/
theorem call_empty_chain (lib : Lib) (handler : handlerFunc) (c : fake_context)
    (hc : c.handlers = []) (hi : 0 ≤ c.index) :
    handler.call lib c = exec lib advance handler c := by
  unfold handlerFunc.call
  apply exec_congr lib (fake_context.Next lib) advance [] 0 advance_steady
  · intro c2 hc2 hj2
    apply Next_out_of_range
    rw [hc2]
    simp only [List.length_nil, Nat.cast_zero]
    omega
  · exact hc
  · exact hi

/-- A handler call is steady. -/
theorem call_steady (lib : Lib) (handler : handlerFunc) :
    Steady (handler.call lib) :=
  exec_steady lib (fake_context.Next lib) (Next_steady lib) handler

/-- Injecting headers changes neither the stored body nor the context. -/
theorem setHeaders_frame (lib : Lib) (headers : List (GoString × GoString)) :
    ∀ fr : fake_request, (setHeaders lib fr headers).body = fr.body ∧
      (setHeaders lib fr headers).context = fr.context := by
  induction headers with
  | nil => intro fr; exact ⟨rfl, rfl⟩
  | cons kv rest ih =>
    intro fr
    have hs := ih (fr.SetHeader lib kv.1 kv.2)
    exact hs

/-- What `NewFakeRequest` returns holds the given body and the fresh context. -/
theorem NewFakeRequest_fresh (lib : Lib) (method url : GoString) (body : Bytes)
    (fr : fake_request) (h : NewFakeRequest lib method url body = .ok fr) :
    fr.body = body ∧
      fr.context = { requestCtx := {}, paramValues := [], handlers := [], index := 0,
                     invoked := [] } := by
  unfold NewFakeRequest at h
  cases hreq : lib.NewRequest method url body with
  | error e => rw [hreq] at h; cases h
  | ok req =>
    rw [hreq] at h
    simp only [Except.ok.injEq] at h
    subst h
    exact ⟨rfl, rfl⟩

/-- On every request a test can hold the chain is empty, no chain handler has been called and
the cursor is not negative. -/
theorem reachable_invariant (lib : Lib) (fr : fake_request) (h : Reachable lib fr) :
    fr.context.handlers = [] ∧ fr.context.invoked = [] ∧ 0 ≤ fr.context.index := by
  induction h with
  | new method url body fr hnew =>
    obtain ⟨_, hctx⟩ := NewFakeRequest_fresh lib method url body fr hnew
    rw [hctx]
    exact ⟨rfl, rfl, le_refl _⟩
  | setParam fr param value _ ih => exact ih
  | setHeader fr key value _ ih => exact ih
  | run fr handler after resp err _ hrun ih =>
    obtain ⟨i1, i2, i3⟩ := ih
    unfold fake_request.Run at hrun
    cases hd : lib.DumpRequest fr.request with
    | error e =>
      rw [hd] at hrun
      simp only [Option.some.injEq, Prod.mk.injEq] at hrun
      obtain ⟨hfr, _, _⟩ := hrun
      subst hfr
      exact ⟨i1, i2, i3⟩
    | ok dump =>
      rw [hd] at hrun
      simp only at hrun
      cases hr : lib.Read fr.context.requestCtx.Request dump with
      | mk parsed e =>
        rw [hr] at hrun
        cases e with
        | some e =>
          simp only [Option.some.injEq, Prod.mk.injEq] at hrun
          obtain ⟨hfr, _, _⟩ := hrun
          subst hfr
          exact ⟨i1, i2, i3⟩
        | none =>
          simp only [Option.map_eq_some'] at hrun
          obtain ⟨ctx, hcall, hres⟩ := hrun
          simp only [Prod.mk.injEq] at hres
          obtain ⟨hfr, _, _⟩ := hres
          subst hfr
          have hce := call_empty_chain lib handler
            { fr.context with requestCtx := { fr.context.requestCtx with
                Request := { parsed with body := fr.body } } } i1 i3
          rw [hce] at hcall
          obtain ⟨c1, h1, a1, a2, a3, _⟩ := exec_advance lib handler
            { fr.context with requestCtx := { fr.context.requestCtx with
                Request := { parsed with body := fr.body } } }
          rw [h1] at hcall
          simp only [Option.some.injEq] at hcall
          subst hcall
          exact ⟨a1.trans i1, a2.trans i2, le_trans i3 a3⟩

/-! ## The claims -/

/-- C1: after `SetParam(k, v)` the context's `Param(k)` is exactly `v`, whatever `k` held before,
`Param` of every other key is as it was, and on a request freshly returned by
`NewFakeRequest` every `Param` is the empty string. -/
theorem setParam_then_param (lib : Lib) (fr : fake_request) (k v : GoString) :
    (fr.SetParam k v).context.Param k = v ∧
    (∀ k2, k2 ≠ k → (fr.SetParam k v).context.Param k2 = fr.context.Param k2) ∧
    (∀ method url body fresh, NewFakeRequest lib method url body = .ok fresh →
      ∀ k2, fresh.context.Param k2 = []) := by
  refine ⟨?_, ?_, ?_⟩
  · simp only [fake_request.SetParam, fake_context.Param, mapGet_mapSet_same, Option.getD_some]
  · intro k2 hne
    simp only [fake_request.SetParam, fake_context.Param,
      mapGet_mapSet_other fr.context.paramValues k k2 v hne]
  · intro method url body fresh hnew k2
    obtain ⟨_, hctx⟩ := NewFakeRequest_fresh lib method url body fresh hnew
    rw [hctx]
    rfl

/-- Witness of C1 on the request of the end-to-end scenario: a second write to `id` wins, the
key `name` keeps its value, and a fresh request has no `id`. -/
theorem setParam_then_param_witness :
    (((sampleRequest.SetParam (str "name") (str "ann")).SetParam (str "id") (str "7")).SetParam
        (str "id") (str "42")).context.Param (str "id") = str "42" ∧
    (((sampleRequest.SetParam (str "name") (str "ann")).SetParam (str "id") (str "7")).SetParam
        (str "id") (str "42")).context.Param (str "name") = str "ann" ∧
    sampleRequest.context.Param (str "id") = [] :=
  ⟨(setParam_then_param sampleLib
      ((sampleRequest.SetParam (str "name") (str "ann")).SetParam (str "id") (str "7"))
      (str "id") (str "42")).1,
   ((setParam_then_param sampleLib
      ((sampleRequest.SetParam (str "name") (str "ann")).SetParam (str "id") (str "7"))
      (str "id") (str "42")).2.1 (str "name") (by decide)).trans (by decide),
   (setParam_then_param sampleLib sampleRequest (str "id") (str "42")).2.2
      (str "GET") (str "/users/42") [] sampleRequest rfl (str "id")⟩

/-- C2: when the value serializes, `SendJSON` returns no error and changes the response in
exactly two places, the content type, set to `application/json`, and the body, set to the
serialization; when the value does not serialize, `SendJSON` returns that error and the
context, response included, is as before the call. -/
theorem sendJSON_result (lib : Lib) (ctx : fake_context) (x : Value) :
    (∀ raw, lib.Marshal x = .ok raw →
      fake_context.SendJSON lib ctx x =
        ({ ctx with requestCtx := { ctx.requestCtx with
            Response := { statusCode := ctx.requestCtx.Response.statusCode,
                          contentType := str "application/json",
                          header := ctx.requestCtx.Response.header,
                          body := raw } } }, none)) ∧
    (∀ err, lib.Marshal x = .error err → fake_context.SendJSON lib ctx x = (ctx, some err)) := by
  constructor
  · intro raw h
    unfold fake_context.SendJSON
    rw [h]
    rfl
  · intro err h
    unfold fake_context.SendJSON
    rw [h]

/-- Witness of C2 under `sampleLib`: a string is sent as its quoted form with the JSON content
type, and a Go function, which has no serialization, gives an error and leaves a response
that already holds a status and a body untouched. -/
theorem sendJSON_result_witness :
    (fake_context.SendJSON sampleLib sampleRequest.context (.string (str "ok"))).1.requestCtx.Response
      = { statusCode := 0, contentType := str "application/json", header := [],
          body := str "\"ok\"" } ∧
    fake_context.SendJSON sampleLib
        ((sampleRequest.context.Status 201).SendString (str "kept")) .func =
      ((sampleRequest.context.Status 201).SendString (str "kept"),
        some { msg := str "unsupported type" }) :=
  ⟨congrArg (fun r => r.1.requestCtx.Response)
      ((sendJSON_result sampleLib sampleRequest.context (.string (str "ok"))).1
        (str "\"ok\"") rfl),
   (sendJSON_result sampleLib ((sampleRequest.context.Status 201).SendString (str "kept"))
      .func).2 { msg := str "unsupported type" } rfl⟩

/-- C3 fails as stated: `application/json-seq` is a content type other than
`application/json`, yet `ParseBody` returns no unsupported-content-type error for it; it
decodes the body into `out` and returns the decoder's result. -/
theorem parseBody_other_type_decoded :
    str "application/json-seq" ≠ str "application/json" ∧
    (fake_context.ParseBody sampleLib
        (sampleContext (str "application/json-seq") (str "\x7b\"a\":1\x7d")) .null).2 = none ∧
    fake_context.ParseBody sampleLib
        (sampleContext (str "application/json-seq") (str "\x7b\"a\":1\x7d")) .null =
      (.object [(str "a", .int 1)], none) :=
  ⟨by decide, rfl, rfl⟩

/-- C3 as amended: when the request's content type begins with `application/json`,
`ParseBody(out)` returns exactly the result of JSON-decoding the request body into `out`;
for every content type that does not begin with it, the empty one included, `ParseBody`
returns the unsupported-content-type error, whose message contains that content type, and
`out` is left as it was. -/
theorem parseBody_result (lib : Lib) (ctx : fake_context) (out : Value) :
    (str "application/json" <+: ctx.requestCtx.Request.contentType →
      fake_context.ParseBody lib ctx out = lib.Unmarshal ctx.requestCtx.Request.body out) ∧
    (¬ str "application/json" <+: ctx.requestCtx.Request.contentType →
      fake_context.ParseBody lib ctx out =
          (out, some { msg := fake_context.unsupportedMessage ctx.requestCtx.Request.contentType })
        ∧ ctx.requestCtx.Request.contentType <:+:
            fake_context.unsupportedMessage ctx.requestCtx.Request.contentType) := by
  constructor
  · intro h
    have hp : HasPrefix ctx.requestCtx.Request.contentType MIMEApplicationJSON = true := by
      unfold HasPrefix MIMEApplicationJSON
      exact List.isPrefixOf_iff_prefix.mpr h
    simp only [fake_context.ParseBody, hp, if_true]
  · intro h
    have hp : ¬ HasPrefix ctx.requestCtx.Request.contentType MIMEApplicationJSON = true := by
      unfold HasPrefix MIMEApplicationJSON
      intro hcon
      exact h (List.isPrefixOf_iff_prefix.mp hcon)
    constructor
    · simp only [fake_context.ParseBody, hp, Bool.false_eq_true, if_false]
    · exact ⟨str "content type '", _, rfl⟩

/-- Witness of C3 as amended, under `sampleLib`: with content type `application/json` the body
with the single field `a` set to 1 is decoded and `a` is 1; with `text/plain` and with no
content type the error names the content type and `out` is untouched. -/
theorem parseBody_result_witness :
    fake_context.ParseBody sampleLib
        (sampleContext (str "application/json") (str "\x7b\"a\":1\x7d")) .null =
      (.object [(str "a", .int 1)], none) ∧
    (fake_context.ParseBody sampleLib (sampleContext (str "text/plain") (str "hello")) .null =
        (.null, some { msg := fake_context.unsupportedMessage (str "text/plain") })
      ∧ str "text/plain" <:+: fake_context.unsupportedMessage (str "text/plain")) ∧
    (fake_context.ParseBody sampleLib (sampleContext [] (str "hello")) .null).2 =
        some { msg := fake_context.unsupportedMessage [] } :=
  ⟨(parseBody_result sampleLib (sampleContext (str "application/json") (str "\x7b\"a\":1\x7d"))
      .null).1 (by decide),
   (parseBody_result sampleLib (sampleContext (str "text/plain") (str "hello")) .null).2
      (by decide),
   congrArg Prod.snd
    ((parseBody_result sampleLib (sampleContext [] (str "hello")) .null).2 (by decide)).1⟩

/-- C4: for a request built by `NewFakeRequest` with body `B` and any headers injected with
`SetHeader`, whenever `Run` returns without error the handler was called on a context whose
`Body()` is exactly `B`, the parsed request having its body replaced by the stored bytes; so a
handler that begins by reading `Body()` runs as if it had been handed `B`. -/
theorem run_body_is_stored_body (lib : Lib) (method url : GoString) (B : Bytes)
    (headers : List (GoString × GoString)) (fr : fake_request)
    (hnew : NewFakeRequest lib method url B = .ok fr) :
    (∀ handler after resp,
      (setHeaders lib fr headers).Run lib handler = some (after, resp, none) →
      ∃ dump parsed ctx,
        lib.DumpRequest (setHeaders lib fr headers).request = .ok dump ∧
        lib.Read fr.context.requestCtx.Request dump = (parsed, none) ∧
        ctx = { fr.context with requestCtx := { fr.context.requestCtx with
                  Request := { parsed with body := B } } } ∧
        ctx.Body = B ∧
        handler.call lib ctx = some after.context) ∧
    (∀ k : GoString → handlerFunc,
      (setHeaders lib fr headers).Run lib (.Body k) =
        (setHeaders lib fr headers).Run lib (k B)) := by
  obtain ⟨hbody, _⟩ := NewFakeRequest_fresh lib method url B fr hnew
  obtain ⟨hb, hc⟩ := setHeaders_frame lib headers fr
  constructor
  · intro handler after resp hrun
    unfold fake_request.Run at hrun
    rw [hb, hc, hbody] at hrun
    cases hd : lib.DumpRequest (setHeaders lib fr headers).request with
    | error e =>
      rw [hd] at hrun
      simp only [Option.some.injEq, Prod.mk.injEq] at hrun
      exact absurd hrun.2.2 (by simp)
    | ok dump =>
      rw [hd] at hrun
      simp only at hrun
      cases hr : lib.Read fr.context.requestCtx.Request dump with
      | mk parsed e =>
        rw [hr] at hrun
        cases e with
        | some e =>
          simp only [Option.some.injEq, Prod.mk.injEq] at hrun
          exact absurd hrun.2.2 (by simp)
        | none =>
          simp only [Option.map_eq_some'] at hrun
          obtain ⟨ctx, hcall, hres⟩ := hrun
          simp only [Prod.mk.injEq] at hres
          obtain ⟨hfr, _, _⟩ := hres
          subst hfr
          exact ⟨dump, parsed, _, rfl, hr, rfl, rfl, hcall⟩
  · intro k
    unfold fake_request.Run
    rw [hb, hc, hbody]
    cases lib.DumpRequest (setHeaders lib fr headers).request with
    | error e => rfl
    | ok dump =>
      simp only
      cases lib.Read fr.context.requestCtx.Request dump with
      | mk parsed e =>
        cases e with
        | some e => rfl
        | none => rfl

/-- Witness of C4 under `sampleLib`, whose parser leaves the whole dump as the request body: with
the body `hello` and a content-type header injected, a handler that echoes `Body()` into the
response produces `hello`. -/
theorem run_body_is_stored_body_witness :
    NewFakeRequest sampleLib (str "POST") (str "/echo") (str "hello") =
      .ok (requestOf (str "POST") (str "/echo") (str "hello")) ∧
    ((setHeaders sampleLib (requestOf (str "POST") (str "/echo") (str "hello"))
        [(str "Content-Type", str "text/plain")]).Run sampleLib
      (.Body (fun b => .SendString b .ret))).map (fun r => (r.2.1.body, r.2.2)) =
      some (str "hello", none) :=
  ⟨rfl,
   (congrArg (Option.map (fun r => (r.2.1.body, r.2.2)))
      ((run_body_is_stored_body sampleLib (str "POST") (str "/echo") (str "hello")
        [(str "Content-Type", str "text/plain")]
        (requestOf (str "POST") (str "/echo") (str "hello")) rfl).2
        (fun b => .SendString b .ret))).trans rfl⟩

/-- C5: `Run` is the handler called once on the request's own context, whose request record is
the parsed dump with the stored body; on a request a test can hold, when the dump and the
parse succeed the handler returns, and `Run` returns no error and the response record as the
handler left it; when the dump or the parse fails `Run` returns that error with the empty
response record, whatever the handler is, and the context's response is as before. -/
theorem run_result (lib : Lib) (fr : fake_request) (handler : handlerFunc) :
    (∀ dump parsed,
      lib.DumpRequest fr.request = .ok dump →
      lib.Read fr.context.requestCtx.Request dump = (parsed, none) →
      fr.Run lib handler =
          (handler.call lib
            { fr.context with requestCtx := { fr.context.requestCtx with
                Request := { parsed with body := fr.body } } }).map
            (fun ctx => ({ fr with context := ctx }, ctx.requestCtx.Response, none)) ∧
        (Reachable lib fr → ∃ ctx,
          handler.call lib
            { fr.context with requestCtx := { fr.context.requestCtx with
                Request := { parsed with body := fr.body } } } = some ctx ∧
          fr.Run lib handler = some ({ fr with context := ctx }, ctx.requestCtx.Response, none))) ∧
    (∀ err, lib.DumpRequest fr.request = .error err →
      fr.Run lib handler = some (fr, {}, some err)) ∧
    (∀ dump parsed err,
      lib.DumpRequest fr.request = .ok dump →
      lib.Read fr.context.requestCtx.Request dump = (parsed, some err) →
      fr.Run lib handler =
        some ({ fr with context := { fr.context with
                  requestCtx := { fr.context.requestCtx with Request := parsed } } },
              {}, some err)) := by
  refine ⟨?_, ?_, ?_⟩
  · intro dump parsed hd hr
    have heq : fr.Run lib handler =
        (handler.call lib
          { fr.context with requestCtx := { fr.context.requestCtx with
              Request := { parsed with body := fr.body } } }).map
          (fun ctx => ({ fr with context := ctx }, ctx.requestCtx.Response, none)) := by
      unfold fake_request.Run
      rw [hd]
      simp only
      rw [hr]
    refine ⟨heq, ?_⟩
    intro hreach
    obtain ⟨i1, _, i3⟩ := reachable_invariant lib fr hreach
    have hce := call_empty_chain lib handler
      { fr.context with requestCtx := { fr.context.requestCtx with
          Request := { parsed with body := fr.body } } } i1 i3
    obtain ⟨c1, h1, _⟩ := exec_advance lib handler
      { fr.context with requestCtx := { fr.context.requestCtx with
          Request := { parsed with body := fr.body } } }
    refine ⟨c1, hce.trans h1, ?_⟩
    rw [heq, hce, h1]
    rfl
  · intro err hd
    unfold fake_request.Run
    rw [hd]
  · intro dump parsed err hd hr
    unfold fake_request.Run
    rw [hd]
    simp only
    rw [hr]

/-- Witness of C5 under `sampleLib`: the scenario request runs a status handler to the end and
returns its response with no error; a request with an empty URL fails in the dump and a
request with a body of 64 bytes fails in the parse, both with the empty response. -/
theorem run_result_witness :
    (∃ ctx,
      (statusHandler 204).call sampleLib
          { sampleRequest.context with requestCtx := { sampleRequest.context.requestCtx with
              Request := { ({ body := str "GET /users/42 HTTP/1.1\r\n\r\n" } : fasthttp.Request)
                           with body := sampleRequest.body } } } = some ctx ∧
      sampleRequest.Run sampleLib (statusHandler 204) =
        some ({ sampleRequest with context := ctx }, ctx.requestCtx.Response, none)) ∧
    (requestOf (str "GET") [] []).Run sampleLib (statusHandler 204) =
      some (requestOf (str "GET") [] [], {}, some { msg := str "empty url" }) ∧
    ((requestOf (str "GET") (str "/") (List.replicate 64 120)).Run sampleLib
        (statusHandler 204)).map (fun r => r.2) =
      some ({}, some { msg := str "too long" }) :=
  ⟨((run_result sampleLib sampleRequest (statusHandler 204)).1
      (str "GET /users/42 HTTP/1.1\r\n\r\n") { body := str "GET /users/42 HTTP/1.1\r\n\r\n" }
      rfl rfl).2 (Reachable.new (str "GET") (str "/users/42") [] sampleRequest rfl),
   (run_result sampleLib (requestOf (str "GET") [] []) (statusHandler 204)).2.1
      { msg := str "empty url" } rfl,
   (congrArg (Option.map (fun r => r.2))
      ((run_result sampleLib (requestOf (str "GET") (str "/") (List.replicate 64 120))
          (statusHandler 204)).2.2
        (str "GET / HTTP/1.1\r\n\r\n" ++ List.replicate 64 120)
        ({ body := List.take 64 (str "GET / HTTP/1.1\r\n\r\n" ++ List.replicate 64 120) } :
          fasthttp.Request)
        { msg := str "too long" } rfl rfl)).trans rfl⟩

/-- C6 fails as stated: on the fresh context of the scenario request the chain is empty, so the
cursor plus one is out of range, and `Next` does not leave the context as it was: the cursor
goes from 0 to 1. -/
theorem next_out_of_range_moves_cursor :
    (sampleRequest.context.handlers.length : Int) ≤ sampleRequest.context.index + 1 ∧
    sampleRequest.context.index = 0 ∧
    fake_context.Next sampleLib sampleRequest.context =
      some { sampleRequest.context with index := 1 } ∧
    fake_context.Next sampleLib sampleRequest.context ≠ some sampleRequest.context := by
  refine ⟨by decide, rfl, rfl, ?_⟩
  intro h
  have hi := congrArg (Option.map fake_context.index) h
  exact absurd hi (by decide)

/-- C6 as amended: when the cursor plus one is at or past the end of the handler sequence, the
empty sequence included, and the cursor is below `MaxInt64`, so that its increment does not
wrap, `Next` returns without a panic, calls no handler, and changes nothing in the context
but the cursor, which it advances by one and which stays within the range of `int`. -/
theorem next_out_of_range (lib : Lib) (ctx : fake_context)
    (h : (ctx.handlers.length : Int) ≤ ctx.index + 1) (hmax : ctx.index < MaxInt64) :
    fake_context.Next lib ctx = some { ctx with index := ctx.index + 1 } ∧
    ctx.index + 1 ≤ MaxInt64 := by
  refine ⟨Next_out_of_range lib ctx h, ?_⟩
  omega

/-- Witness of C6 as amended: at cursor 2 of a chain of three handlers `Next` only moves the
cursor to 3, and the log of called positions stays empty. -/
theorem next_out_of_range_witness :
    ((chainContext 2).handlers.length : Int) ≤ (chainContext 2).index + 1 ∧
    (chainContext 2).index < MaxInt64 ∧
    fake_context.Next sampleLib (chainContext 2) = some (chainContext 3) :=
  ⟨by decide, by decide,
   (next_out_of_range sampleLib (chainContext 2) (by decide) (by decide)).1⟩

/-- C7 fails as stated: the context `NewFakeRequest` creates starts with the cursor at 0, not
at -1. -/
theorem new_request_cursor_not_minus_one :
    NewFakeRequest sampleLib (str "GET") (str "/users/42") [] = .ok sampleRequest ∧
    sampleRequest.context.index = 0 ∧
    sampleRequest.context.index ≠ -1 :=
  ⟨rfl, rfl, by decide⟩

/-- C7 as amended: the context `NewFakeRequest` creates starts with the cursor at 0; `Next`
moves the cursor forward, every other method of the context leaves it where it is, a handler
call and a `Run` never move it back, `SetParam` and `SetHeader` leave it where it is, and none
of them changes the handler sequence; so a cursor at or past the end of the sequence stays
there. -/
theorem cursor_monotonic (lib : Lib) :
    (∀ method url body fr, NewFakeRequest lib method url body = .ok fr →
      fr.context.index = 0) ∧
    (∀ ctx ctx1, fake_context.Next lib ctx = some ctx1 →
      ctx.index + 1 ≤ ctx1.index ∧ ctx1.handlers = ctx.handlers) ∧
    (∀ (ctx : fake_context) (b : Bytes) (s key : GoString) (v : Value) (n : Int),
      (ctx.SendBytes b).index = ctx.index ∧ (ctx.SendString s).index = ctx.index ∧
      (fake_context.SendJSON lib ctx v).1.index = ctx.index ∧ (ctx.Status n).index = ctx.index ∧
      (ctx.Set lib key s).index = ctx.index ∧ (ctx.SetLocal key v).index = ctx.index) ∧
    (∀ handler ctx ctx1, handlerFunc.call lib handler ctx = some ctx1 →
      ctx.index ≤ ctx1.index ∧ ctx1.handlers = ctx.handlers ∧
      ((ctx.handlers.length : Int) ≤ ctx.index → (ctx1.handlers.length : Int) ≤ ctx1.index)) ∧
    (∀ (fr : fake_request) (k v : GoString),
      (fr.SetParam k v).context.index = fr.context.index ∧
      (fr.SetParam k v).context.handlers = fr.context.handlers ∧
      (fr.SetHeader lib k v).context = fr.context) ∧
    (∀ (fr : fake_request) handler after resp err,
      fr.Run lib handler = some (after, resp, err) →
      fr.context.index ≤ after.context.index ∧
      after.context.handlers = fr.context.handlers ∧
      ((fr.context.handlers.length : Int) ≤ fr.context.index →
        (after.context.handlers.length : Int) ≤ after.context.index)) := by
  have hcall : ∀ handler ctx ctx1, handlerFunc.call lib handler ctx = some ctx1 →
      ctx.index ≤ ctx1.index ∧ ctx1.handlers = ctx.handlers ∧
      ((ctx.handlers.length : Int) ≤ ctx.index →
        (ctx1.handlers.length : Int) ≤ ctx1.index) := by
    intro handler ctx ctx1 h
    obtain ⟨a1, a2, _⟩ := call_steady lib handler ctx ctx1 h
    refine ⟨a2, a1, ?_⟩
    intro hex
    rw [a1]
    omega
  refine ⟨?_, ?_, ?_, hcall, ?_, ?_⟩
  · intro method url body fr hnew
    obtain ⟨_, hctx⟩ := NewFakeRequest_fresh lib method url body fr hnew
    rw [hctx]
  · intro ctx ctx1 h
    by_cases hlen : ctx.index + 1 < (ctx.handlers.length : Int)
    · by_cases hpos : 0 ≤ ctx.index + 1
      · have hlt : (ctx.index + 1).toNat < ctx.handlers.length := by omega
        have hh : ctx.handlers[(ctx.index + 1).toNat]? =
            some (ctx.handlers.get ⟨(ctx.index + 1).toNat, hlt⟩) := by
          simp only [List.get_eq_getElem, List.getElem?_eq_getElem hlt]
        rw [Next_in_range lib ctx _ hpos hlen hh] at h
        obtain ⟨a1, a2, _⟩ := call_steady lib _ _ ctx1 h
        exact ⟨a2, a1⟩
      · rw [Next_negative lib ctx hpos hlen] at h
        exact absurd h (by simp)
    · rw [Next_out_of_range lib ctx (by omega)] at h
      simp only [advance, Option.some.injEq] at h
      subst h
      exact ⟨le_refl _, rfl⟩
  · intro ctx b s key v n
    refine ⟨rfl, rfl, ?_, rfl, rfl, rfl⟩
    unfold fake_context.SendJSON
    cases lib.Marshal v with
    | error e => rfl
    | ok raw => rfl
  · intro fr k v
    exact ⟨rfl, rfl, rfl⟩
  · intro fr handler after resp err hrun
    unfold fake_request.Run at hrun
    cases hd : lib.DumpRequest fr.request with
    | error e =>
      rw [hd] at hrun
      simp only [Option.some.injEq, Prod.mk.injEq] at hrun
      obtain ⟨hfr, _, _⟩ := hrun
      subst hfr
      exact ⟨le_refl _, rfl, fun hex => hex⟩
    | ok dump =>
      rw [hd] at hrun
      simp only at hrun
      cases hr : lib.Read fr.context.requestCtx.Request dump with
      | mk parsed e =>
        rw [hr] at hrun
        cases e with
        | some e =>
          simp only [Option.some.injEq, Prod.mk.injEq] at hrun
          obtain ⟨hfr, _, _⟩ := hrun
          subst hfr
          exact ⟨le_refl _, rfl, fun hex => hex⟩
        | none =>
          simp only [Option.map_eq_some'] at hrun
          obtain ⟨ctx, hcl, hres⟩ := hrun
          simp only [Prod.mk.injEq] at hres
          obtain ⟨hfr, _, _⟩ := hres
          subst hfr
          have hs := hcall handler _ ctx hcl
          exact hs

/-- Witness of C7 as amended under `sampleLib`: the scenario request starts at cursor 0, and a
`Run` of a handler that calls `Next` twice leaves the cursor at 2, past the end of the empty
chain. -/
theorem cursor_monotonic_witness :
    sampleRequest.context.index = 0 ∧
    ∃ after, sampleRequest.Run sampleLib (.Next (.Next .ret)) = some (after, {}, none) ∧
      after.context.index = 2 ∧ sampleRequest.context.index ≤ after.context.index :=
  ⟨(cursor_monotonic sampleLib).1 (str "GET") (str "/users/42") [] sampleRequest rfl,
   { sampleRequest with context :=
      { requestCtx := {}, paramValues := [], handlers := [], index := 2, invoked := [] } },
   rfl, rfl,
   ((cursor_monotonic sampleLib).2.2.2.2.2 sampleRequest (.Next (.Next .ret)) _ {} none rfl).1⟩

/-- C8: for the request `NewFakeRequest` builds for GET `/users/42` with no body, once the
parameter `id` is set to `42`, and when the dump and the parse of the request succeed and the
codec serializes the object mapping `id` to `42` as the text of that object, `Run` of the
handler that reads `Param("id")`, sets status 200 and sends that object as JSON returns no
error and a response with status 200, content type `application/json` and that text as body. -/
theorem end_to_end (lib : Lib) (fr : fake_request) (dump : Bytes) (parsed : fasthttp.Request)
    (hnew : NewFakeRequest lib (str "GET") (str "/users/42") [] = .ok fr)
    (hdump : lib.DumpRequest fr.request = .ok dump)
    (hread : lib.Read {} dump = (parsed, none))
    (hjson : lib.Marshal (.object [(str "id", .string (str "42"))]) =
      .ok (str "\x7b\"id\":\"42\"\x7d")) :
    ∃ after,
      (fr.SetParam (str "id") (str "42")).Run lib userHandler =
        some (after,
          { statusCode := 200, contentType := str "application/json", header := [],
            body := str "\x7b\"id\":\"42\"\x7d" },
          none) := by
  obtain ⟨hbody, hctx⟩ := NewFakeRequest_fresh lib (str "GET") (str "/users/42") [] fr hnew
  cases fr with
  | mk request context body =>
    simp only at hctx hbody hdump
    subst hctx
    subst hbody
    unfold fake_request.Run
    simp only [fake_request.SetParam]
    rw [hdump]
    simp only
    rw [hread]
    simp only [handlerFunc.call, userHandler, exec, fake_context.Param, mapSet, mapGet,
      if_true, Option.getD_some, fake_context.SendJSON, hjson, fake_context.Status,
      Option.map_some', MIMEApplicationJSON]
    exact ⟨_, rfl⟩

/-- Witness of C8 under `sampleLib`. -/
theorem end_to_end_witness :
    ∃ after,
      (sampleRequest.SetParam (str "id") (str "42")).Run sampleLib userHandler =
        some (after,
          { statusCode := 200, contentType := str "application/json", header := [],
            body := str "\x7b\"id\":\"42\"\x7d" },
          none) :=
  end_to_end sampleLib sampleRequest (str "GET /users/42 HTTP/1.1\r\n\r\n")
    { body := str "GET /users/42 HTTP/1.1\r\n\r\n" } rfl rfl rfl rfl

/-- C9: when the cursor plus one is a position of the handler sequence, `Next` moves the cursor
to it and calls the handler at that position, once, on this same context, in which nothing
but the cursor differs from before (and the ghost log, which records the call); whatever the
handler does, the path parameters and the handler sequence come back unchanged; and when the
handler does not call `Next`, it returns with the cursor still at that position and no other
handler of the sequence called. -/
theorem next_in_range (lib : Lib) (ctx : fake_context)
    (hpos : 0 ≤ ctx.index + 1) (hlen : ctx.index + 1 < (ctx.handlers.length : Int)) :
    ∃ handler, ctx.handlers[(ctx.index + 1).toNat]? = some handler ∧
      fake_context.Next lib ctx =
        handler.call lib { ctx with index := ctx.index + 1,
                                    invoked := ctx.invoked ++ [(ctx.index + 1).toNat] } ∧
      (∀ ctx1, fake_context.Next lib ctx = some ctx1 →
        ctx1.paramValues = ctx.paramValues ∧ ctx1.handlers = ctx.handlers) ∧
      (callsNoNext handler → ∃ ctx1, fake_context.Next lib ctx = some ctx1 ∧
        ctx1.index = ctx.index + 1 ∧
        ctx1.invoked = ctx.invoked ++ [(ctx.index + 1).toNat] ∧
        ctx1.paramValues = ctx.paramValues ∧ ctx1.handlers = ctx.handlers) := by
  have hlt : (ctx.index + 1).toNat < ctx.handlers.length := by omega
  have hh : ctx.handlers[(ctx.index + 1).toNat]? =
      some (ctx.handlers.get ⟨(ctx.index + 1).toNat, hlt⟩) := by
    simp only [List.get_eq_getElem, List.getElem?_eq_getElem hlt]
  have hnext := Next_in_range lib ctx _ hpos hlen hh
  refine ⟨_, hh, hnext, ?_, ?_⟩
  · intro ctx1 h
    obtain ⟨a1, _, a3⟩ := Next_steady lib ctx ctx1 h
    exact ⟨a3, a1⟩
  · intro hno
    obtain ⟨c1, h1, a1, a2, a3, a4⟩ := exec_callsNoNext lib (fake_context.Next lib) _ hno
      { ctx with index := ctx.index + 1, invoked := ctx.invoked ++ [(ctx.index + 1).toNat] }
    exact ⟨c1, hnext.trans h1, a2, a3, a4, a1⟩

/-- Witness of C9 under `sampleLib`: at cursor 0 of a chain of three status handlers `Next` calls
the handler at position 1 and no other; the cursor ends at 1, the status is the one that
handler sets, and the path parameters are as before. -/
theorem next_in_range_witness :
    0 ≤ (chainContext 0).index + 1 ∧
    (chainContext 0).index + 1 < ((chainContext 0).handlers.length : Int) ∧
    fake_context.Next sampleLib (chainContext 0) =
      some { ((chainContext 1).Status 202) with invoked := [1] } ∧
    ({ ((chainContext 1).Status 202) with invoked := [1] } : fake_context).paramValues =
      (chainContext 0).paramValues :=
  ⟨by decide, by decide, rfl,
   (next_in_range sampleLib (chainContext 0) (by decide) (by decide)).elim
    (fun _ h => (h.2.2.1 _ rfl).1)⟩

/-- C10: on every request a test can hold, the handler sequence is empty, no chain handler has
been called and the cursor is not negative.  For a handler that calls `Next` at most `m` times,
the cursor plus `m` not exceeding `MaxInt64`, `Run` returns, having called the handler
directly, with the sequence still empty, still no chain handler called and the cursor moved
forward by at most `m`; every `Next` the handler calls does nothing but advance the cursor by
one, without indexing the sequence.  On an empty sequence with a cursor from 0 to below
`MaxInt64`, `Next` returns the context with the cursor one further; and `n` calls of `Next`
in a row, the cursor plus `n` not exceeding `MaxInt64`, return it with the cursor `n`
further. -/
theorem empty_chain (lib : Lib) (fr : fake_request) (hreach : Reachable lib fr) :
    fr.context.handlers = [] ∧ fr.context.invoked = [] ∧ 0 ≤ fr.context.index ∧
    (∀ handler (m : Nat), nextsAtMost handler m → fr.context.index + m ≤ MaxInt64 →
      ∃ after resp err, fr.Run lib handler = some (after, resp, err) ∧
        after.context.handlers = [] ∧ after.context.invoked = [] ∧
        fr.context.index ≤ after.context.index ∧
        after.context.index ≤ fr.context.index + m) ∧
    (∀ handler (m : Nat) (ctx : fake_context), ctx.handlers = [] → 0 ≤ ctx.index →
      nextsAtMost handler m → ctx.index + m ≤ MaxInt64 →
      handlerFunc.call lib handler ctx = exec lib advance handler ctx) ∧
    (∀ ctx : fake_context, ctx.handlers = [] → 0 ≤ ctx.index → ctx.index < MaxInt64 →
      fake_context.Next lib ctx = some { ctx with index := ctx.index + 1 }) ∧
    (∀ n : Nat, fr.context.index + n ≤ MaxInt64 →
      nextTimes lib n fr.context =
        some { fr.context with index := fr.context.index + n }) := by
  obtain ⟨i1, i2, i3⟩ := reachable_invariant lib fr hreach
  refine ⟨i1, i2, i3, ?_, ?_, ?_, ?_⟩
  · intro handler m hb _
    unfold fake_request.Run
    cases hd : lib.DumpRequest fr.request with
    | error e => exact ⟨fr, {}, some e, rfl, i1, i2, le_refl _, by omega⟩
    | ok dump =>
      simp only
      cases hr : lib.Read fr.context.requestCtx.Request dump with
      | mk parsed e =>
        cases e with
        | some e => exact ⟨_, {}, some e, rfl, i1, i2, le_refl _, by simp only; omega⟩
        | none =>
          simp only
          have hce := call_empty_chain lib handler
            { fr.context with requestCtx := { fr.context.requestCtx with
                Request := { parsed with body := fr.body } } } i1 i3
          obtain ⟨c1, h1, a1, a2, a3, a4, _⟩ := exec_advance_bound lib handler m
            { fr.context with requestCtx := { fr.context.requestCtx with
                Request := { parsed with body := fr.body } } } hb
          rw [hce, h1]
          exact ⟨{ fr with context := c1 }, c1.requestCtx.Response, none, rfl,
            a1.trans i1, a2.trans i2, a3, a4⟩
  · intro handler m ctx hc hi _ _
    exact call_empty_chain lib handler ctx hc hi
  · intro ctx hc hi _
    apply Next_out_of_range
    rw [hc]
    simp only [List.length_nil, Nat.cast_zero]
    omega
  · intro n _
    have hgen : ∀ (m : Nat) (c : fake_context), c.handlers = [] → 0 ≤ c.index →
        nextTimes lib m c = some { c with index := c.index + m } := by
      intro m
      induction m with
      | zero =>
        intro c _ _
        simp only [nextTimes, Nat.cast_zero, add_zero]
      | succ m ih =>
        intro c hc hi
        have hn : fake_context.Next lib c = some { c with index := c.index + 1 } := by
          apply Next_out_of_range
          rw [hc]
          simp only [List.length_nil, Nat.cast_zero]
          omega
        simp only [nextTimes, hn, Option.some_bind]
        rw [ih { c with index := c.index + 1 } hc (by simp only; omega)]
        simp only [Nat.cast_add, Nat.cast_one, Option.some.injEq, fake_context.mk.injEq,
          true_and, and_true]
        omega
    exact hgen n fr.context i1 i3

/-- Witness of C10 under `sampleLib` on the scenario request: a `Run` of a handler that calls
`Next` three times returns with the cursor at 3 and no chain handler called, `Next` on the
fresh context moves the cursor to 1, and five calls of `Next` in a row move it from 0 to 5. -/
theorem empty_chain_witness :
    sampleRequest.context.handlers = [] ∧
    nextsAtMost (.Next (.Next (.Next .ret))) 3 ∧
    sampleRequest.context.index + (3 : Nat) ≤ MaxInt64 ∧
    (∃ after resp err,
      sampleRequest.Run sampleLib (.Next (.Next (.Next .ret))) = some (after, resp, err) ∧
      after.context.handlers = [] ∧ after.context.invoked = [] ∧
      sampleRequest.context.index ≤ after.context.index ∧
      after.context.index ≤ sampleRequest.context.index + (3 : Nat)) ∧
    (sampleRequest.Run sampleLib (.Next (.Next (.Next .ret)))).map
        (fun r => (r.1.context.index, r.1.context.invoked, r.2.2)) = some (3, [], none) ∧
    fake_context.Next sampleLib sampleRequest.context =
      some { sampleRequest.context with index := sampleRequest.context.index + 1 } ∧
    sampleRequest.context.index + (5 : Nat) ≤ MaxInt64 ∧
    nextTimes sampleLib 5 sampleRequest.context =
      some { sampleRequest.context with index := sampleRequest.context.index + (5 : Nat) } :=
  ⟨(empty_chain sampleLib sampleRequest
      (Reachable.new (str "GET") (str "/users/42") [] sampleRequest rfl)).1,
   by simp only [nextsAtMost, Nat.lt_irrefl, and_self, and_true]; decide,
   by decide,
   (empty_chain sampleLib sampleRequest
      (Reachable.new (str "GET") (str "/users/42") [] sampleRequest rfl)).2.2.2.1
        (.Next (.Next (.Next .ret))) 3
        (by simp only [nextsAtMost, Nat.lt_irrefl, and_self, and_true]; decide) (by decide),
   rfl,
   (empty_chain sampleLib sampleRequest
      (Reachable.new (str "GET") (str "/users/42") [] sampleRequest rfl)).2.2.2.2.2.1
        sampleRequest.context rfl (by decide) (by decide),
   by decide,
   (empty_chain sampleLib sampleRequest
      (Reachable.new (str "GET") (str "/users/42") [] sampleRequest rfl)).2.2.2.2.2.2 5
        (by decide)⟩

end GogearboxTestings
